import Mathlib

/-
Verification of the DR4SR training harness against its specification.

The development shallowly embeds the Python sources:
  * src/models/layers.py      (SeqPoolingLayer)           -> namespace SeqPooling
  * src/model/basemodel.py    (BaseModel)                 -> namespaces NegSampling,
                                                             FitLoop, Checkpointing, TopK
  * src/model/metamodel.py    (MetaModel)                 -> namespaces SharedEmbedding, MetaLoop

Tensors are embedded as functions over `Fin` index types with rational entries;
the float value -inf is `⊥` in `WithBot ℚ`.  Library routines outside the
repository (torch.multinomial, torch.topk, the optimizers) are modelled by
parameters together with the guarantee the code relies on, stated as an
explicit hypothesis of the corresponding theorem.
-/

namespace DR4SR

namespace SeqPooling

/-- The pooling types accepted by `SeqPoolingLayer.__init__` (layers.py line 7). -/
def validPoolingTypes : List String :=
  ["origin", "mask", "concat", "sum", "mean", "max", "last"]

/-- The state a `SeqPoolingLayer` stores after construction (layers.py lines 10-11). -/
structure Layer where
  poolingType : String
  keepdim : Bool
deriving DecidableEq

/-- Constructor `SeqPoolingLayer.__init__` (layers.py lines 5-11): a pooling type
outside `validPoolingTypes` raises `ValueError`, modelled as `Except.error`;
otherwise the arguments are stored unchanged on the layer. -/
def initLayer (poolingType : String) (keepdim : Bool) : Except String Layer :=
  if poolingType ∈ validPoolingTypes then
    .ok { poolingType := poolingType, keepdim := keepdim }
  else
    .error "pooling_type can only be one of origin, mask, concat, sum, mean, max, last"

/-- Padding mask fill (layers.py lines 37-42): positions `l` with
`l >= seq_len[i]` are overwritten with `0.0`, elementwise over the feature
dimension. -/
def maskedFillPad (N L D : Nat) (emb : Fin N → Fin L → Fin D → ℚ)
    (seqLen : Fin N → Nat) : Fin N → Fin L → Fin D → ℚ :=
  fun i l d => if seqLen i ≤ (l : Nat) then 0 else emb i l d

/-- Mean pooling branch (layers.py lines 57-62, `keepdim = False`): the masked
embeddings are summed over the sequence dimension and divided by
`seq_len.squeeze(2)`, broadcast over the feature dimension. -/
def meanPool (N L D : Nat) (emb : Fin N → Fin L → Fin D → ℚ)
    (seqLen : Fin N → Nat) : Fin N → Fin D → ℚ :=
  fun i d => (∑ l : Fin L, maskedFillPad N L D emb seqLen i l d) / (seqLen i : ℚ)

/-- Sum pooling branch (layers.py lines 57-60, `keepdim = False`). -/
def sumPool (N L D : Nat) (emb : Fin N → Fin L → Fin D → ℚ)
    (seqLen : Fin N → Nat) : Fin N → Fin D → ℚ :=
  fun i d => ∑ l : Fin L, maskedFillPad N L D emb seqLen i l d

/-- Values component of `Tensor.max(dim=1)` applied to the masked embeddings
(layers.py line 51): the maximum of the column over the sequence dimension. -/
def maxPoolValues (N L D : Nat) (emb : Fin N → Fin L → Fin D → ℚ)
    (seqLen : Fin N → Nat) : Fin N → Fin D → ℚ :=
  fun i d =>
    (((List.finRange L).map (fun l => maskedFillPad N L D emb seqLen i l d)).max?).getD 0

/-- Indices component of `Tensor.max(dim=1)` applied to the masked embeddings
(layers.py line 51): the position of a maximal element (first occurrence). -/
def maxPoolIndices (N L D : Nat) (emb : Fin N → Fin L → Fin D → ℚ)
    (seqLen : Fin N → Nat) : Fin N → Fin D → Nat :=
  fun i d =>
    ((List.finRange L).map (fun l => maskedFillPad N L D emb seqLen i l d)).findIdx
      (fun q => q == maxPoolValues N L D emb seqLen i d)

/-- The pair (named tuple) returned by `Tensor.max(dim=1)`: a values tensor and
an indices tensor, not a single tensor. -/
structure MaxRet (N D : Nat) where
  values : Fin N → Fin D → ℚ
  indices : Fin N → Fin D → Nat

/-- Last pooling branch (layers.py lines 64-68, `keepdim = False`): gather at
index `seq_len - 1` along the sequence dimension, then squeeze.  `torch.gather`
rejects an out-of-range index at runtime, so the default branch is unreachable
whenever `1 <= seq_len[i] <= L`. -/
def lastPool (N L D : Nat) (emb : Fin N → Fin L → Fin D → ℚ)
    (seqLen : Fin N → Nat) : Fin N → Fin D → ℚ :=
  fun i d =>
    if h : seqLen i - 1 < L then emb i ⟨seqLen i - 1, h⟩ d else 0

/-- Possible results of `SeqPoolingLayer.forward` on a 3-D input: a 3-D tensor
(`origin`), a 2-D tensor (`mean`, `sum`, `last`), or the (values, indices)
pair produced by `Tensor.max(dim=1)` (`max` with `keepdim = False`). -/
inductive PoolOut (N L D : Nat) where
  | t3 (x : Fin N → Fin L → Fin D → ℚ)
  | t2 (x : Fin N → Fin D → ℚ)
  | pair (x : MaxRet N D)

/-- Dispatch of `SeqPoolingLayer.forward` (layers.py lines 13-73) specialised to
a 3-D input `[N, L, D]` with `weight = None` and `mask_token = None` — the
configuration every claim exercises.  The `mask` and `concat` branches and the
`keepdim = True` variants are outside the claims and are modelled as `none`
(for `max` with `keepdim = True` the source itself crashes, calling
`.unsqueeze(1)` on the named tuple returned by `Tensor.max`). -/
def forward3d (layer : Layer) (N L D : Nat) (emb : Fin N → Fin L → Fin D → ℚ)
    (seqLen : Fin N → Nat) : Option (PoolOut N L D) :=
  if layer.keepdim then none
  else if layer.poolingType = "origin" then
    some (.t3 (maskedFillPad N L D emb seqLen))
  else if layer.poolingType = "max" then
    some (.pair ⟨maxPoolValues N L D emb seqLen, maxPoolIndices N L D emb seqLen⟩)
  else if layer.poolingType = "mean" then
    some (.t2 (meanPool N L D emb seqLen))
  else if layer.poolingType = "sum" then
    some (.t2 (sumPool N L D emb seqLen))
  else if layer.poolingType = "last" then
    some (.t2 (lastPool N L D emb seqLen))
  else none

/-- Key for the mean and sum branches: the sum over the whole (masked) sequence
dimension equals the sum over the valid prefix of positions `l < seq_len[i]`. -/
theorem maskedSum_eq_prefixSum (N L D : Nat) (emb : Fin N → Fin L → Fin D → ℚ)
    (seqLen : Fin N → Nat) (i : Fin N) (d : Fin D) :
    (∑ l : Fin L, maskedFillPad N L D emb seqLen i l d) =
      ∑ l ∈ Finset.univ.filter (fun l : Fin L => (l : Nat) < seqLen i), emb i l d := by
  rw [Finset.sum_filter]
  refine Finset.sum_congr rfl (fun l _ => ?_)
  simp only [maskedFillPad]
  by_cases h : (l : Nat) < seqLen i
  · rw [if_neg (Nat.not_le.mpr h), if_pos h]
  · rw [if_pos (Nat.not_lt.mp h), if_neg h]

/-- C10: constructing `SeqPoolingLayer` with a `pooling_type` other than
'origin', 'mask', 'concat', 'sum', 'mean', 'max', 'last' raises a `ValueError`,
and with any of those seven values construction succeeds and stores that
`pooling_type` (and `keepdim`) unchanged on the layer. -/
theorem initLayer_validates (s : String) (k : Bool) :
    ((s = "origin" ∨ s = "mask" ∨ s = "concat" ∨ s = "sum" ∨ s = "mean" ∨
        s = "max" ∨ s = "last") →
      initLayer s k = .ok ⟨s, k⟩) ∧
    (¬ (s = "origin" ∨ s = "mask" ∨ s = "concat" ∨ s = "sum" ∨ s = "mean" ∨
        s = "max" ∨ s = "last") →
      ∃ msg, initLayer s k = .error msg) := by
  have hmem : s ∈ validPoolingTypes ↔
      (s = "origin" ∨ s = "mask" ∨ s = "concat" ∨ s = "sum" ∨ s = "mean" ∨
        s = "max" ∨ s = "last") := by
    simp [validPoolingTypes]
  constructor
  · intro h
    rw [initLayer, if_pos (hmem.mpr h)]
  · intro h
    exact ⟨_, by rw [initLayer, if_neg (fun hc => h (hmem.mp hc))]⟩

/-- Witness for C10: the valid type 'mean' is stored unchanged, the invalid
type 'foo' is rejected. -/
theorem initLayer_validates_witness :
    initLayer "mean" true = .ok ⟨"mean", true⟩ ∧
    ∃ msg, initLayer "foo" false = .error msg :=
  ⟨(initLayer_validates "mean" true).1 (by decide),
   (initLayer_validates "foo" false).2 (by decide)⟩

/-- C2: with `pooling_type = 'mean'`, `keepdim = False`, no weight, a 3-D input
`[N, L, D]` and `1 <= seq_len[i] <= L`, the forward pass returns an `[N, D]`
tensor whose row `i` is the elementwise sum of the first `seq_len[i]`
embeddings of sequence `i` divided by `seq_len[i]`; embeddings at positions
`seq_len[i]` or beyond have no effect on the result. -/
theorem mean_pooling_prefix_mean (N L D : Nat) (emb : Fin N → Fin L → Fin D → ℚ)
    (seqLen : Fin N → Nat) (hlen : ∀ i, 1 ≤ seqLen i ∧ seqLen i ≤ L) :
    (∃ out : Fin N → Fin D → ℚ,
      forward3d ⟨"mean", false⟩ N L D emb seqLen = some (.t2 out) ∧
      ∀ i d, out i d =
        (∑ l ∈ Finset.univ.filter (fun l : Fin L => (l : Nat) < seqLen i), emb i l d) /
          (seqLen i : ℚ)) ∧
    (∀ emb2 : Fin N → Fin L → Fin D → ℚ,
      (∀ (i : Fin N) (l : Fin L) (d : Fin D),
        (l : Nat) < seqLen i → emb2 i l d = emb i l d) →
      forward3d ⟨"mean", false⟩ N L D emb2 seqLen =
        forward3d ⟨"mean", false⟩ N L D emb seqLen) := by
  constructor
  · refine ⟨meanPool N L D emb seqLen, rfl, fun i d => ?_⟩
    simp only [meanPool]
    rw [maskedSum_eq_prefixSum]
  · intro emb2 hagree
    have hpool : meanPool N L D emb2 seqLen = meanPool N L D emb seqLen := by
      funext i d
      simp only [meanPool]
      rw [maskedSum_eq_prefixSum, maskedSum_eq_prefixSum]
      congr 1
      refine Finset.sum_congr rfl (fun l hl => ?_)
      exact hagree i l d (by simpa using hl)
    show some (PoolOut.t2 (meanPool N L D emb2 seqLen)) =
      some (PoolOut.t2 (meanPool N L D emb seqLen))
    rw [hpool]

/-- Witness for C2 at `N = 1`, `L = 2`, `D = 1`, embeddings (3, 5) and
`seq_len = 1`: only the first embedding contributes. -/
theorem mean_pooling_prefix_mean_witness :
    (∀ i : Fin 1, 1 ≤ (fun _ : Fin 1 => 1) i ∧ (fun _ : Fin 1 => 1) i ≤ 2) ∧
    ((∃ out : Fin 1 → Fin 1 → ℚ,
      forward3d ⟨"mean", false⟩ 1 2 1
          (fun _ l _ => if (l : Nat) = 0 then 3 else 5) (fun _ : Fin 1 => 1) =
        some (.t2 out) ∧
      ∀ i d, out i d =
        (∑ l ∈ Finset.univ.filter
            (fun l : Fin 2 => (l : Nat) < (fun _ : Fin 1 => 1) i),
            (fun (_ : Fin 1) (l : Fin 2) (_ : Fin 1) =>
              if (l : Nat) = 0 then (3 : ℚ) else 5) i l d) /
          (((fun _ : Fin 1 => 1) i : Nat) : ℚ)) ∧
    (∀ emb2 : Fin 1 → Fin 2 → Fin 1 → ℚ,
      (∀ (i : Fin 1) (l : Fin 2) (d : Fin 1), (l : Nat) < (fun _ : Fin 1 => 1) i →
        emb2 i l d =
          (fun (_ : Fin 1) (l : Fin 2) (_ : Fin 1) =>
            if (l : Nat) = 0 then (3 : ℚ) else 5) i l d) →
      forward3d ⟨"mean", false⟩ 1 2 1 emb2 (fun _ : Fin 1 => 1) =
        forward3d ⟨"mean", false⟩ 1 2 1
          (fun _ l _ => if (l : Nat) = 0 then 3 else 5) (fun _ : Fin 1 => 1))) :=
  ⟨by decide,
   mean_pooling_prefix_mean 1 2 1
     (fun _ l _ => if (l : Nat) = 0 then 3 else 5) (fun _ : Fin 1 => 1)
     (by decide)⟩

/-- C3: with `pooling_type = 'last'`, `keepdim = False`, a 3-D input `[N, L, D]`
and `1 <= seq_len[i] <= L`, the forward pass returns an `[N, D]` tensor whose
row `i` is the embedding at position `seq_len[i] - 1` of sequence `i`. -/
theorem last_pooling_last_valid (N L D : Nat) (emb : Fin N → Fin L → Fin D → ℚ)
    (seqLen : Fin N → Nat) (hlen : ∀ i, 1 ≤ seqLen i ∧ seqLen i ≤ L) :
    ∃ out : Fin N → Fin D → ℚ,
      forward3d ⟨"last", false⟩ N L D emb seqLen = some (.t2 out) ∧
      ∀ i d, out i d = emb i ⟨seqLen i - 1, by have hx := hlen i; omega⟩ d := by
  refine ⟨lastPool N L D emb seqLen, rfl, fun i d => ?_⟩
  have h : seqLen i - 1 < L := by have hx := hlen i; omega
  simp only [lastPool]
  rw [dif_pos h]

/-- Witness for C3 at `N = 1`, `L = 2`, `D = 1`, embeddings (7, 9) and
`seq_len = 2`: the last valid position (index 1) is selected. -/
theorem last_pooling_last_valid_witness :
    (∀ i : Fin 1, 1 ≤ (fun _ : Fin 1 => 2) i ∧ (fun _ : Fin 1 => 2) i ≤ 2) ∧
    ∃ out : Fin 1 → Fin 1 → ℚ,
      forward3d ⟨"last", false⟩ 1 2 1
          (fun _ l _ => if (l : Nat) = 0 then 7 else 9) (fun _ : Fin 1 => 2) =
        some (.t2 out) ∧
      ∀ i d, out i d =
        (fun (_ : Fin 1) (l : Fin 2) (_ : Fin 1) =>
          if (l : Nat) = 0 then (7 : ℚ) else 9) i ⟨1, by decide⟩ d :=
  ⟨by decide,
   last_pooling_last_valid 1 2 1
     (fun _ l _ => if (l : Nat) = 0 then 7 else 9) (fun _ : Fin 1 => 2)
     (by decide)⟩

/-- C4 (code bug): at a concrete input, max pooling with `keepdim = False` on a
3-D batch returns the (values, indices) pair produced by `Tensor.max(dim=1)`
(layers.py line 51 binds the named tuple itself, not its values field), not a
tensor of shape `[N, D]`; the values component does hold the claimed
elementwise maxima over the zero-filled sequence. -/
theorem max_pooling_returns_pair :
    ∃ ret : MaxRet 1 1,
      forward3d ⟨"max", false⟩ 1 2 1
          (fun _ l _ => if (l : Nat) = 0 then 1 else 2) (fun _ : Fin 1 => 2) =
        some (.pair ret) ∧
      ret.values 0 0 = 2 ∧ ret.indices 0 0 = 1 :=
  ⟨_, rfl, by decide, by decide⟩

end SeqPooling

namespace NegSampling

/-- Multinomial weight matrix built by `BaseModel._neg_sampling` (basemodel.py
lines 49-52): a row of ones per batch element, zeroed at every item occurring
in that row of `user_seq` (`weight[_idx, user_seq] = 0.0`) and at the padding
item 0 (`weight[:, 0] = 0`). -/
def negWeight (B SL I : Nat) (userSeq : Fin B → Fin SL → Fin I) :
    Fin B → Fin I → ℚ :=
  fun b i =>
    let w1 : ℚ := 1
    let w2 : ℚ := if ∃ j, userSeq b j = i then 0 else w1
    if (i : Nat) = 0 then 0 else w2

/-- Bound used by the reshape `[B, num_neg * max_seq_len] ->
[B, max_seq_len, num_neg]` of basemodel.py line 54 (row-major order). -/
theorem reshape_index_lt (maxSeqLen numNeg : Nat) (l : Fin maxSeqLen)
    (n : Fin numNeg) : (l : Nat) * numNeg + (n : Nat) < numNeg * maxSeqLen := by
  have hn := n.isLt
  have hl := l.isLt
  have h1 : (l : Nat) * numNeg + (n : Nat) < ((l : Nat) + 1) * numNeg := by
    rw [Nat.succ_mul]; omega
  have h2 : ((l : Nat) + 1) * numNeg ≤ maxSeqLen * numNeg :=
    Nat.mul_le_mul_right _ hl
  rw [Nat.mul_comm numNeg maxSeqLen]
  omega

/-- Function `BaseModel._neg_sampling` (basemodel.py lines 47-55).  `torch.multinomial`
is a library routine modelled by the sampler `samp`; the guarantee the code
relies on — an index whose weight is zero is never drawn — is stated as an
explicit hypothesis of the theorem below.  The result type records the shape
`[B, max_seq_len, num_neg]` produced by the final reshape. -/
def negSampling (B SL I maxSeqLen numNeg : Nat)
    (samp : Fin B → Fin (numNeg * maxSeqLen) → Fin I) :
    Fin B → Fin maxSeqLen → Fin numNeg → Fin I :=
  fun b l n => samp b ⟨(l : Nat) * numNeg + (n : Nat), reshape_index_lt maxSeqLen numNeg l n⟩

/-- C1: whenever the sampler only draws indices of nonzero weight (the
`torch.multinomial` guarantee), every entry of the `[B, max_seq_len, num_neg]`
tensor returned by `_neg_sampling` is neither the padding item 0 nor any item
occurring in the batch row of `user_seq`. -/
theorem neg_sampling_avoids_interacted (B SL I maxSeqLen numNeg : Nat)
    (userSeq : Fin B → Fin SL → Fin I)
    (samp : Fin B → Fin (numNeg * maxSeqLen) → Fin I)
    (hsamp : ∀ b j, negWeight B SL I userSeq b (samp b j) ≠ 0) :
    ∀ (b : Fin B) (l : Fin maxSeqLen) (n : Fin numNeg),
      ((negSampling B SL I maxSeqLen numNeg samp b l n : Fin I) : Nat) ≠ 0 ∧
      ∀ j, userSeq b j ≠ negSampling B SL I maxSeqLen numNeg samp b l n := by
  intro b l n
  set i := negSampling B SL I maxSeqLen numNeg samp b l n with hi
  have hw : negWeight B SL I userSeq b i ≠ 0 := hsamp b _
  constructor
  · intro h0
    exact hw (by simp only [negWeight]; rw [if_pos h0])
  · intro j hj
    apply hw
    simp only [negWeight]
    rw [if_neg ?hz]
    case hz =>
      intro h0
      exact hw (by simp only [negWeight]; rw [if_pos h0])
    rw [if_pos ⟨j, hj⟩]

/-- Witness for C1: three items, history `[1]`, sampler always drawing item 2
(which indeed has nonzero weight). -/
theorem neg_sampling_avoids_interacted_witness :
    (∀ (b : Fin 1) (j : Fin (1 * 1)),
      negWeight 1 1 3 (fun _ _ => (1 : Fin 3)) b
        ((fun _ _ => (2 : Fin 3)) b j) ≠ 0) ∧
    ∀ (b : Fin 1) (l : Fin 1) (n : Fin 1),
      ((negSampling 1 1 3 1 1 (fun _ _ => (2 : Fin 3)) b l n : Fin 3) : Nat) ≠ 0 ∧
      ∀ j, (fun (_ : Fin 1) (_ : Fin 1) => (1 : Fin 3)) b j ≠
        negSampling 1 1 3 1 1 (fun _ _ => (2 : Fin 3)) b l n :=
  ⟨by decide,
   neg_sampling_avoids_interacted 1 1 3 1 1
     (fun _ _ => (1 : Fin 3)) (fun _ _ => (2 : Fin 3)) (by decide)⟩

end NegSampling

namespace FitLoop

/-- Final state of `BaseModel.fit_loop` as far as checkpointing is concerned:
the epoch passed to `callback.save_checkpoint`, the recorded
`self.ckpt_path`, and whether the run was interrupted. -/
structure FitState where
  savedCkptEpoch : Option Nat
  ckptPath : Option Nat
  interrupted : Bool
deriving DecidableEq

/-- Body of the `try` block of `BaseModel.fit_loop` (basemodel.py lines 96-137):
the `for e in range(epochs)` loop starting at `nepoch = 0`.  `stop e` is the
early-stopping result of `self.callback` at epoch `e` (line 131-133); a
`KeyboardInterrupt` raised while the epoch counter equals `e` is modelled by
`interrupt e` and propagates out of the loop as `Except.error e`. -/
def fitLoopTry (stop interrupt : Nat → Bool) : Nat → Nat → Except Nat Nat
  | nepoch, 0 => .ok nepoch
  | nepoch, fuel + 1 =>
    if interrupt nepoch then .error nepoch
    else if stop nepoch then .ok nepoch
    else fitLoopTry stop interrupt (nepoch + 1) fuel

/-- Method `BaseModel.fit_loop` (basemodel.py lines 94-144): on normal completion it
saves a checkpoint for the final epoch and records the checkpoint path (lines
137-139); a `KeyboardInterrupt` is caught, a checkpoint is saved for the
current `nepoch`, the path recorded, and the method returns normally (lines
140-144).  `ckptPath` stands for `callback.get_checkpoint_path()`. -/
def fitLoop (epochs : Nat) (stop interrupt : Nat → Bool) (ckptPath : Nat) :
    FitState :=
  match fitLoopTry stop interrupt 0 epochs with
  | .ok n => { savedCkptEpoch := some n, ckptPath := some ckptPath, interrupted := false }
  | .error n => { savedCkptEpoch := some n, ckptPath := some ckptPath, interrupted := true }

/-- An `Except.error` outcome of the loop can only carry an epoch at which the
interrupt actually fired. -/
theorem fitLoopTry_error_interrupt (stop interrupt : Nat → Bool) :
    ∀ (fuel start n : Nat),
      fitLoopTry stop interrupt start fuel = .error n → interrupt n = true := by
  intro fuel
  induction fuel with
  | zero => intro start n h; exact absurd h (by simp [fitLoopTry])
  | succ fuel ih =>
    intro start n h
    rw [fitLoopTry] at h
    by_cases hintr : interrupt start
    · rw [if_pos hintr] at h
      cases h
      exact hintr
    · rw [if_neg hintr] at h
      by_cases hstop : stop start
      · rw [if_pos hstop] at h
        cases h
      · rw [if_neg hstop] at h
        exact ih (start + 1) n h

/-- C5: a `KeyboardInterrupt` raised anywhere inside the training loop (the run
of the `try` block ends as `Except.error n`, `n` being the epoch counter at
the raise, necessarily one where the interrupt fired) does not propagate:
`fit_loop` returns normally with a checkpoint saved for that epoch and
`self.ckpt_path` set to the callback's checkpoint path. -/
theorem fit_loop_catches_interrupt (epochs : Nat) (stop interrupt : Nat → Bool)
    (p n : Nat) (h : fitLoopTry stop interrupt 0 epochs = .error n) :
    fitLoop epochs stop interrupt p =
      { savedCkptEpoch := some n, ckptPath := some p, interrupted := true } ∧
    interrupt n = true := by
  constructor
  · rw [fitLoop, h]
  · exact fitLoopTry_error_interrupt stop interrupt epochs 0 n h

/-- Witness for C5: three epochs, no early stop, interrupt while `nepoch = 1`;
the saved checkpoint is for epoch 1 and the path is recorded. -/
theorem fit_loop_catches_interrupt_witness :
    fitLoopTry (fun _ => false) (fun e => e == 1) 0 3 = .error 1 ∧
    (fitLoop 3 (fun _ => false) (fun e => e == 1) 7 =
      { savedCkptEpoch := some 1, ckptPath := some 7, interrupted := true } ∧
    (fun e : Nat => e == 1) 1 = true) :=
  ⟨rfl, fit_loop_catches_interrupt 3 (fun _ => false) (fun e => e == 1) 7 1 rfl⟩

end FitLoop

namespace SharedEmbedding

/-- Heap of embedding objects: a reference id maps to the weight table stored
in the `nn.Embedding` it designates (item index to weight entry, flattened). -/
abbrev Heap : Type := Nat → Nat → ℚ

/-- The reference-holding fields of a `MetaModel` after `_init_model`:
`sub_model.item_embedding` (allocated by `BaseModel.__init__`, basemodel.py
line 38), `MetaModel.item_embedding` (`None` in `MetaModel.__init__`,
metamodel.py line 27), and the step counter. -/
structure MetaModelState where
  subEmbRef : Nat
  metaEmbRef : Option Nat
  stepCounter : Nat

/-- Method `MetaModel._init_model` (metamodel.py lines 29-32): after registering the
sub model, `self.item_embedding = self.sub_model.item_embedding` stores the
very same object reference, not a copy. -/
def initModel (subRef : Nat) : MetaModelState :=
  { subEmbRef := subRef, metaEmbRef := some subRef, stepCounter := 0 }

/-- One training step of `MetaModel.training_epoch` (metamodel.py lines
98-114): the sub model's optimizer updates the weights stored in the embedding
object in place (`upd`), and the step counter advances; neither
`item_embedding` field is reassigned anywhere in the loop. -/
def trainingStep (st : MetaModelState) (heap : Heap)
    (upd : (Nat → ℚ) → (Nat → ℚ)) : MetaModelState × Heap :=
  ({ st with stepCounter := st.stepCounter + 1 },
   fun r => if r = st.subEmbRef then upd (heap r) else heap r)

/-- A whole training run: the in-place weight updates of successive steps. -/
def runTraining : MetaModelState × Heap → List ((Nat → ℚ) → (Nat → ℚ)) →
    MetaModelState × Heap
  | sh, [] => sh
  | (st, heap), u :: us => runTraining (trainingStep st heap u) us

/-- Reading the weight table through an embedding field that may be `None`. -/
def readEmbedding (heap : Heap) (ref : Option Nat) (item : Nat) : Option ℚ :=
  ref.map (fun r => heap r item)

/-- Training never reassigns the embedding references. -/
theorem runTraining_preserves_refs :
    ∀ (upds : List ((Nat → ℚ) → (Nat → ℚ))) (st : MetaModelState) (heap : Heap),
      (runTraining (st, heap) upds).1.subEmbRef = st.subEmbRef ∧
      (runTraining (st, heap) upds).1.metaEmbRef = st.metaEmbRef := by
  intro upds
  induction upds with
  | nil => intro st heap; exact ⟨rfl, rfl⟩
  | cons u us ih =>
    intro st heap
    rw [runTraining, trainingStep]
    exact ih _ _

/-- C6: after `MetaModel._init_model`, the meta model's `item_embedding` is the
very same object as the sub model's, and this sharing is preserved by every
subsequent training step: at any point of any training run, reading weights
through `MetaModel.item_embedding` yields exactly the (in-place updated)
weights of `sub_model.item_embedding`. -/
theorem shared_item_embedding (subRef : Nat) (heap : Heap)
    (upds : List ((Nat → ℚ) → (Nat → ℚ))) :
    (runTraining (initModel subRef, heap) upds).1.metaEmbRef =
      some (runTraining (initModel subRef, heap) upds).1.subEmbRef ∧
    ∀ item : Nat,
      readEmbedding (runTraining (initModel subRef, heap) upds).2
          (runTraining (initModel subRef, heap) upds).1.metaEmbRef item =
        some ((runTraining (initModel subRef, heap) upds).2
          (runTraining (initModel subRef, heap) upds).1.subEmbRef item) := by
  obtain ⟨hsub, hmeta⟩ := runTraining_preserves_refs upds (initModel subRef) heap
  have hshare : (runTraining (initModel subRef, heap) upds).1.metaEmbRef =
      some (runTraining (initModel subRef, heap) upds).1.subEmbRef := by
    rw [hsub, hmeta]; rfl
  exact ⟨hshare, fun item => by rw [hshare]; rfl⟩

end SharedEmbedding

namespace Checkpointing

/-- A checkpoint object as produced by `callbacks` and consumed by
`BaseModel.load_checkpoint`: a configuration dictionary under key 'config' and
a model parameter state dictionary under key 'parameters'. -/
structure Checkpoint (C P : Type) where
  config : C
  parameters : P

/-- The fields of a model that `load_checkpoint` touches. -/
structure ModelState (C P : Type) where
  config : C
  params : P

/-- Method `BaseModel.load_checkpoint` (basemodel.py lines 350-353): `torch.load` is
modelled by the map `store` from paths to the checkpoint objects they hold;
the stored configuration replaces `self.config` and the stored state
dictionary is loaded into the model's parameters. -/
def load_checkpoint (C P : Type) (st : ModelState C P)
    (store : String → Checkpoint C P) (path : String) : ModelState C P :=
  let ckpt := store path
  { st with config := ckpt.config, params := ckpt.parameters }

/-- C7: for every checkpoint storing a configuration under 'config' and a
parameter state dictionary under 'parameters', `load_checkpoint` on its path
replaces `self.config` with the stored configuration and loads the stored
parameters into the model. -/
theorem load_checkpoint_restores (C P : Type) (st : ModelState C P)
    (store : String → Checkpoint C P) (path : String) :
    (load_checkpoint C P st store path).config = (store path).config ∧
    (load_checkpoint C P st store path).params = (store path).parameters :=
  ⟨rfl, rfl⟩

end Checkpointing

namespace MetaLoop

/-- Inner descent loop of `MetaModel._outter_loop` (metamodel.py lines
132-141): `for batch_idx, batch in enumerate(loader)` with
`if batch_idx >= descent_step: break`, each surviving iteration applying one
proxy-optimizer gradient update.  Returns the proxy parameters together with
the number of updates applied. -/
def innerLoop (P B : Type) (upd : P → B → P) (descentStep : Nat) :
    P → List B → Nat → P × Nat
  | p, [], idx => (p, idx)
  | p, b :: rest, idx =>
    if descentStep ≤ idx then (p, idx)
    else innerLoop P B upd descentStep (upd p b) rest (idx + 1)

/-- The library and model routines `_outter_loop` calls, as the surrounding
code observes them.  `upd` is one inner gradient update of the proxy model
(`training_step` loss, `backward`, `proxy_model.optimizer.step()`); `valLoss`
and `trainLoss` are `training_step(batch, sub_model=...)` losses.  `metaStep`
is Modelled from the spec: `MetaOptimizer.step` (imported from `utils`, not
part of the repository sources) performs the hypergradient update of the
selection module, so it maps the validation loss, the training loss and the
current meta-module parameters to new meta-module parameters, touching nothing
else. -/
structure OutterEnv (P B M L : Type) where
  upd : P → B → P
  valLoss : P → B → L
  trainLoss : P → B → L
  metaStep : L → L → M → M

/-- The parameter state `_outter_loop` can read or write: the sub model's
parameters and the meta (selection) module's parameters. -/
structure TrainerState (P M : Type) where
  subParams : P
  metaParams : M

/-- Method `MetaModel._outter_loop` (metamodel.py lines 118-167): build a proxy model
and load the current sub-model state into it (lines 129-131; the
`_init_model` initialisation is overwritten by `load_state_dict`), run the
inner descent loop on meta-loader batches, compute the validation loss of the
final proxy on the next meta-loader batch (lines 143-151) and the training
loss of the sub model on a train-loader batch (lines 153-158), and hand both
to `meta_optimizer.step` (lines 160-167).  Besides the new trainer state, the
returned triple records the final proxy parameters and the number of inner
updates, so the theorem below can speak about them. -/
def outterLoop (P B M L : Type) (env : OutterEnv P B M L) (descentStep : Nat)
    (st : TrainerState P M) (metaBatches : List B) (metaBatch trainBatch : B) :
    TrainerState P M × P × Nat :=
  let proxy0 := st.subParams
  let inner := innerLoop P B env.upd descentStep proxy0 metaBatches 0
  let metaLoss := env.valLoss inner.1 metaBatch
  let metaTrainLoss := env.trainLoss st.subParams trainBatch
  ({ subParams := st.subParams,
     metaParams := env.metaStep metaLoss metaTrainLoss st.metaParams },
   inner.1, inner.2)

/-- Unfolding of the enumerate-with-break loop: as long as enough batches
remain, it performs exactly the remaining `descentStep - idx` updates. -/
theorem innerLoop_eq_foldl (P B : Type) (upd : P → B → P) (descentStep : Nat) :
    ∀ (batches : List B) (p : P) (idx : Nat), idx ≤ descentStep →
      descentStep ≤ idx + batches.length →
      innerLoop P B upd descentStep p batches idx =
        (List.foldl upd p (batches.take (descentStep - idx)), descentStep) := by
  intro batches
  induction batches with
  | nil =>
    intro p idx h1 h2
    have : descentStep = idx := by simpa using Nat.le_antisymm (by simpa using h2) h1
    subst this
    simp [innerLoop]
  | cons b rest ih =>
    intro p idx h1 h2
    rw [innerLoop]
    by_cases hle : descentStep ≤ idx
    · have : descentStep = idx := Nat.le_antisymm hle h1
      subst this
      rw [if_pos (Nat.le_refl _)]
      simp
    · rw [if_neg hle]
      have hlt : idx < descentStep := Nat.lt_of_not_le hle
      have hrec := ih (upd p b) (idx + 1) hlt
        (by simpa [Nat.add_comm, Nat.add_left_comm] using h2)
      rw [hrec]
      have hpos : 0 < descentStep - idx := Nat.sub_pos_of_lt hlt
      have htake : (b :: rest).take (descentStep - idx) =
          b :: rest.take (descentStep - idx - 1) := by
        obtain ⟨m, hm⟩ := Nat.exists_eq_succ_of_ne_zero (Nat.pos_iff_ne_zero.mp hpos)
        rw [hm]
        simp [List.take_succ_cons]
      rw [htake, List.foldl_cons]
      have : descentStep - (idx + 1) = descentStep - idx - 1 := by omega
      rw [this]

/-- C8: each `_outter_loop` invocation is one bi-level step: the proxy starts
from the current sub-model parameters and receives exactly
`config['train']['descent_step']` inner updates (the assertion
`descent_step < len(meta_dataloader)` guarantees enough batches); the
meta-optimizer step receives the proxy's validation loss on a meta-loader
batch and the sub model's training loss on a train-loader batch and rewrites
only the meta (selection) module's parameters, while the sub model's
parameters — its own optimizer never being stepped here — are unchanged. -/
theorem outter_loop_bilevel (P B M L : Type) (env : OutterEnv P B M L)
    (descentStep : Nat) (st : TrainerState P M) (metaBatches : List B)
    (metaBatch trainBatch : B) (h : descentStep < metaBatches.length) :
    outterLoop P B M L env descentStep st metaBatches metaBatch trainBatch =
      ({ subParams := st.subParams,
         metaParams := env.metaStep
           (env.valLoss (List.foldl env.upd st.subParams
             (metaBatches.take descentStep)) metaBatch)
           (env.trainLoss st.subParams trainBatch)
           st.metaParams },
       List.foldl env.upd st.subParams (metaBatches.take descentStep),
       descentStep) := by
  have hinner := innerLoop_eq_foldl P B env.upd descentStep metaBatches
    st.subParams 0 (Nat.zero_le _) (by omega)
  rw [outterLoop]
  rw [hinner]
  simp

/-- Witness for C8 over integers: two meta batches, one inner step; the sub
parameters survive unchanged and the meta parameters absorb both losses. -/
theorem outter_loop_bilevel_witness :
    1 < ([10, 20] : List ℤ).length ∧
    outterLoop ℤ ℤ ℤ ℤ
        ⟨fun p b => p + b, fun p b => p * b, fun p b => p - b,
         fun v t m => m + v + t⟩ 1 ⟨2, 5⟩ [10, 20] 3 4 =
      ({ subParams := (⟨2, 5⟩ : TrainerState ℤ ℤ).subParams,
         metaParams := (⟨fun p b => p + b, fun p b => p * b, fun p b => p - b,
           fun v t m => m + v + t⟩ : OutterEnv ℤ ℤ ℤ ℤ).metaStep
           ((⟨fun p b => p + b, fun p b => p * b, fun p b => p - b,
             fun v t m => m + v + t⟩ : OutterEnv ℤ ℤ ℤ ℤ).valLoss
             (List.foldl (⟨fun p b => p + b, fun p b => p * b, fun p b => p - b,
               fun v t m => m + v + t⟩ : OutterEnv ℤ ℤ ℤ ℤ).upd
               (⟨2, 5⟩ : TrainerState ℤ ℤ).subParams (([10, 20] : List ℤ).take 1)) 3)
           ((⟨fun p b => p + b, fun p b => p * b, fun p b => p - b,
             fun v t m => m + v + t⟩ : OutterEnv ℤ ℤ ℤ ℤ).trainLoss
             (⟨2, 5⟩ : TrainerState ℤ ℤ).subParams 4)
           (⟨2, 5⟩ : TrainerState ℤ ℤ).metaParams },
       List.foldl (⟨fun p b => p + b, fun p b => p * b, fun p b => p - b,
         fun v t m => m + v + t⟩ : OutterEnv ℤ ℤ ℤ ℤ).upd
         (⟨2, 5⟩ : TrainerState ℤ ℤ).subParams (([10, 20] : List ℤ).take 1),
       1) :=
  ⟨by decide,
   outter_loop_bilevel ℤ ℤ ℤ ℤ
     ⟨fun p b => p + b, fun p b => p * b, fun p b => p - b,
      fun v t m => m + v + t⟩ 1 ⟨2, 5⟩ [10, 20] 3 4 (by decide)⟩

end MetaLoop

namespace TopK

/-- Replacement applied to the user history before the scatter (basemodel.py
line 307): the invalid index -1 is replaced by the PAD id 0. -/
def mapHist (h : ℤ) : ℤ := if h = -1 then 0 else h

/-- The `masked_score` tensor of `BaseModel.topk` (basemodel.py lines
303-308): real scores `query @ item_embedding.weight.T`, filled with -inf
(`⊥` in `WithBot ℚ`) outside the item set of the selected evaluation domain
(lines 304-306) and, by the scatter of line 308, at every index listed in the
mapped user history. -/
def maskedScore (B I H : Nat) (realScore : Fin B → Fin I → ℚ)
    (domainItems : Fin I → Bool) (userH : Fin B → Fin H → ℤ) :
    Fin B → Fin I → WithBot ℚ :=
  fun b i =>
    if domainItems i = false then ⊥
    else if ∃ j, mapHist (userH b j) = (i : ℤ) then ⊥
    else ((realScore b i : ℚ) : WithBot ℚ)

/-- Guarantee of the library routine `torch.topk(masked_score, k)` (basemodel.py
line 310), per row: `k` distinct item indices each of whose scores is at least
the score of every unselected index. -/
def IsTopK (I : Nat) (score : Fin I → WithBot ℚ) (k : Nat)
    (sel : List (Fin I)) : Prop :=
  sel.length = k ∧ sel.Nodup ∧
    ∀ i ∈ sel, ∀ j : Fin I, j ∉ sel → score j ≤ score i

instance (I : Nat) (score : Fin I → WithBot ℚ) (k : Nat) (sel : List (Fin I)) :
    Decidable (IsTopK I score k sel) := by
  unfold IsTopK
  infer_instance

/-- Number of candidate items left unmasked for a row: in the evaluation
domain and not in the (mapped) user history. -/
def unmaskedCount (B I H : Nat) (realScore : Fin B → Fin I → ℚ)
    (domainItems : Fin I → Bool) (userH : Fin B → Fin H → ℤ) (b : Fin B) : Nat :=
  (Finset.univ.filter (fun i : Fin I =>
    maskedScore B I H realScore domainItems userH b i ≠ ⊥)).card

/-- C9: whenever `k` does not exceed the number of unmasked candidates, every
item returned by `BaseModel.topk` for a row is inside the item set of the
currently selected evaluation domain and absent from the user's history
tensor (with -1 entries treated as the padding id 0). -/
theorem topk_respects_mask (B I H k : Nat) (realScore : Fin B → Fin I → ℚ)
    (domainItems : Fin I → Bool) (userH : Fin B → Fin H → ℤ) (b : Fin B)
    (sel : List (Fin I))
    (hk : k ≤ unmaskedCount B I H realScore domainItems userH b)
    (hsel : IsTopK I (maskedScore B I H realScore domainItems userH b) k sel) :
    ∀ i ∈ sel, domainItems i = true ∧ ∀ j, mapHist (userH b j) ≠ (i : ℤ) := by
  obtain ⟨hlen, hnodup, hdom⟩ := hsel
  intro i hi
  have hne : maskedScore B I H realScore domainItems userH b i ≠ ⊥ := by
    intro hbot
    set U := Finset.univ.filter (fun x : Fin I =>
      maskedScore B I H realScore domainItems userH b x ≠ ⊥) with hU
    have hUcard : k ≤ U.card := hk
    have hiU : i ∉ U := by simp [hU, Finset.mem_filter, hbot]
    have hex : ∃ u ∈ U, u ∉ sel := by
      by_contra hall
      push_neg at hall
      have hsub2 : U ⊆ sel.toFinset.erase i := by
        intro u hu
        refine Finset.mem_erase.mpr ⟨?_, List.mem_toFinset.mpr (hall u hu)⟩
        intro hui
        subst hui
        exact hiU hu
      have hcard2 : U.card ≤ sel.toFinset.card - 1 := by
        calc U.card ≤ (sel.toFinset.erase i).card := Finset.card_le_card hsub2
          _ = sel.toFinset.card - 1 :=
            Finset.card_erase_of_mem (List.mem_toFinset.mpr hi)
      have htf : sel.toFinset.card = k := by
        rw [List.toFinset_card_of_nodup hnodup, hlen]
      have hkpos : 0 < k := by
        rcases Nat.eq_zero_or_pos k with h0 | hpos
        · subst h0
          rw [List.length_eq_zero] at hlen
          subst hlen
          simp at hi
        · exact hpos
      omega
    obtain ⟨u, huU, hunotsel⟩ := hex
    have hle := hdom i hi u hunotsel
    rw [hbot] at hle
    have hu0 : maskedScore B I H realScore domainItems userH b u = ⊥ :=
      le_bot_iff.mp hle
    have hu1 : maskedScore B I H realScore domainItems userH b u ≠ ⊥ := by
      simpa [hU, Finset.mem_filter] using huU
    exact hu1 hu0
  cases hdomval : domainItems i with
  | false => exact absurd (by simp [maskedScore, hdomval]) hne
  | true =>
    refine ⟨rfl, fun j hj => ?_⟩
    apply hne
    simp only [maskedScore]
    rw [if_neg (by simp [hdomval])]
    rw [if_pos ⟨j, hj⟩]

/-- Witness for C9: three items, all in the domain, history `[2]`, `k = 1` and
selection `[1]`; the selected item is in the domain and not in the history. -/
theorem topk_respects_mask_witness :
    (1 ≤ unmaskedCount 1 3 1 (fun _ i => (i : ℚ)) (fun _ => true)
      (fun _ _ => (2 : ℤ)) 0) ∧
    IsTopK 3 (maskedScore 1 3 1 (fun _ i => (i : ℚ)) (fun _ => true)
      (fun _ _ => (2 : ℤ)) 0) 1 [1] ∧
    ∀ i ∈ ([1] : List (Fin 3)), (fun _ : Fin 3 => true) i = true ∧
      ∀ j : Fin 1, mapHist ((fun (_ : Fin 1) (_ : Fin 1) => (2 : ℤ)) 0 j) ≠ (i : ℤ) :=
  ⟨by decide, by decide,
   topk_respects_mask 1 3 1 1 (fun _ i => (i : ℚ)) (fun _ => true)
     (fun _ _ => (2 : ℤ)) 0 [1] (by decide) (by decide)⟩

end TopK

end DR4SR
